import Mathlib

set_option linter.unusedVariables false
set_option linter.unnecessarySeqFocus false

/-!
Verification of the hapi compressed-prefix routing tree (`node.addRoute`,
`node.getValue`, `node.incrementChildPrio`, `methodTrees.get`,
`Engine.addRoute`, `Engine.handleHTTPRequest`, `HandlersChain.Last`).

Modelling conventions:
* Go strings are byte sequences and the tree indexes them by byte, so paths
  and index strings are `List Nat` of byte values (47 is the byte of the
  slash character).
* A handler chain is opaque to the tree; it is modelled as a list of handler
  identifiers.  Go `nil` versus non-nil handler slices become `Option`.
* `priority` is a Go `uint32`; increments and decrements are taken modulo
  2^32.
* A Go panic is modelled as `Except.error`.  The insertion walk of
  `addRoute` is a `for` loop that can genuinely fail to terminate, so it
  takes an explicit fuel parameter counting loop iterations; the result
  `none` means the loop did not finish within the given fuel.
-/

abbrev HandlerId := Nat
abbrev HandlersChain := List HandlerId
abbrev Bytes := List Nat

def U32 : Nat := 4294967296

/-- `uint32` increment. -/
def u32succ (x : Nat) : Nat := (x + 1) % U32

/-- `uint32` decrement. -/
def u32pred (x : Nat) : Nat := (x + (U32 - 1)) % U32

/-- A node of the radix tree (`type node struct` in tree.go); the
`wildChild`/`nType` fields are commented out in the source and omitted. -/
inductive Node : Type where
  | mk : (path : Bytes) → (indices : Bytes) → (priority : Nat) →
      (children : List Node) → (handlers : Option HandlersChain) →
      (fullPath : Bytes) → Node

def Node.path : Node → Bytes
  | .mk p _ _ _ _ _ => p

def Node.indices : Node → Bytes
  | .mk _ i _ _ _ _ => i

def Node.priority : Node → Nat
  | .mk _ _ pr _ _ _ => pr

def Node.children : Node → List Node
  | .mk _ _ _ cs _ _ => cs

def Node.handlers : Node → Option HandlersChain
  | .mk _ _ _ _ h _ => h

def Node.fullPath : Node → Bytes
  | .mk _ _ _ _ _ f => f

instance : Inhabited Node := ⟨.mk [] [] 0 [] none []⟩

/-- `longestCommonPrefix` from tree.go: number of leading bytes on which the
two byte strings agree. -/
def commonPrefixLen : Bytes → Bytes → Nat
  | a :: as, b :: bs => if a = b then commonPrefixLen as bs + 1 else 0
  | _, _ => 0

/-- The linear scan `for i, max := 0, len(n.indices); ...` used both by
`addRoute` and `getValue`: position of the first byte equal to `c`. -/
def scanIdx (c : Nat) : Bytes → Option Nat
  | [] => none
  | b :: rest => if b = c then some 0 else (scanIdx c rest).map (· + 1)

/-- The move-to-front loop of `incrementChildPrio`: starting from position
`pos`, repeatedly swap with the predecessor while the predecessor's priority
is strictly lower than `prio`.  Returns the rearranged list and the final
position. -/
def moveUp : List Node → Nat → Nat → List Node × Nat
  | cs, _, 0 => (cs, 0)
  | cs, prio, pos + 1 =>
    match cs[pos]?, cs[pos + 1]? with
    | some a, some b =>
      if a.priority < prio then moveUp ((cs.set pos b).set (pos + 1) a) prio pos
      else (cs, pos + 1)
    | _, _ => (cs, pos + 1)

/-- `node.incrementChildPrio` from tree.go.  Increments the priority of the
child at `pos`, bubbles it toward the front past strictly-lower-priority
predecessors, and rebuilds the index string with the same rearrangement.
Returns the updated node and the new position of the child.  (The source
would panic on an out-of-range `pos`; it is only invoked in range.) -/
def Node.incrementChildPrio (n : Node) (pos : Nat) : Node × Nat :=
  match n.children[pos]? with
  | none => (n, pos)
  | some ch =>
    let ch1 := Node.mk ch.path ch.indices (u32succ ch.priority) ch.children
      ch.handlers ch.fullPath
    let cs1 := n.children.set pos ch1
    let res := moveUp cs1 ch1.priority pos
    let ind :=
      if res.2 ≠ pos then
        n.indices.take res.2 ++ (n.indices.drop pos).take 1 ++
          (n.indices.drop res.2).take (pos - res.2) ++ n.indices.drop (pos + 1)
      else n.indices
    (Node.mk n.path ind n.priority res.1 n.handlers n.fullPath, res.2)

/-- The "split edge" block of `node.addRoute`: demote the current node's
segment suffix from position `i`, with its indices, children and handlers,
into a fresh child; the node keeps the common prefix `p.take i` and a
single-byte index string. -/
def splitNode (n : Node) (p : Bytes) (i : Nat) : Node :=
  let child := Node.mk (n.path.drop i) n.indices (u32pred n.priority)
    n.children n.handlers n.fullPath
  Node.mk (p.take i) [n.path.getD i 0] n.priority [child] none n.fullPath

/-- `node.insertChild` from tree.go (wildcards are not implemented): store
the remaining path, the handlers and the full path on the node. -/
def Node.insertChild (n : Node) (p f : Bytes) (hs : HandlersChain) : Node :=
  Node.mk p n.indices n.priority n.children (some hs) f

/-- `n.priority++`. -/
def incPrioNode (n : Node) : Node :=
  Node.mk n.path n.indices (u32succ n.priority) n.children n.handlers
    n.fullPath

/-- Propagate the result of a recursive walk call on the child at position
`j` back into the parent (in Go the walk mutates the child through the
pointer stored in `n.children`). -/
def reattach (n : Node) (j : Nat) (r : Option (Except String Node)) :
    Option (Except String Node) :=
  match r with
  | none => none
  | some (.error e) => some (.error e)
  | some (.ok ch2) => some (.ok (Node.mk n.path n.indices n.priority
      (n.children.set j ch2) n.handlers n.fullPath))

/-- The `walk` loop of `node.addRoute`, one fuel unit per iteration.
`none` = the loop did not finish within `fuel` iterations;
`some (.error e)` = panic; `some (.ok n)` = updated subtree. -/
def walk : Nat → Node → Bytes → Bytes → HandlersChain →
    Option (Except String Node)
  | 0, _, _, _, _ => none
  | fuel + 1, n, p, f, hs =>
    let i := commonPrefixLen p n.path
    let n1 := if i < n.path.length then splitNode n p i else n
    if i < p.length then
      let p2 := p.drop i
      let c := p2.headD 0
      if c = 47 ∧ n1.children.length = 1 then
        -- the unguarded "slash after param" shortcut: descend into the only
        -- child (the guard guarantees it exists), incrementing its priority
        -- directly
        let ch := n1.children.headD (Node.mk [] [] 0 [] none [])
        reattach n1 0 (walk fuel (incPrioNode ch) p2 f hs)
      else
        match scanIdx c n1.indices with
        | some j =>
          -- existing child with matching first byte: reorder, then descend
          let r := n1.incrementChildPrio j
          match r.1.children[r.2]? with
          | none => some (.error "index out of range")
          | some ch => reattach r.1 r.2 (walk fuel ch p2 f hs)
        | none =>
          -- no child can absorb the suffix: append a fresh child, reorder it
          -- once, and insert the remaining path into it
          let n2 := Node.mk n1.path (n1.indices ++ [c]) n1.priority
            (n1.children ++ [Node.mk [] [] 0 [] none f]) n1.handlers
            n1.fullPath
          let r := n2.incrementChildPrio (n2.indices.length - 1)
          match r.1.children[r.2]? with
          | none => some (.error "index out of range")
          | some ch =>
            some (.ok (Node.mk r.1.path r.1.indices r.1.priority
              (r.1.children.set r.2 (ch.insertChild p2 f hs))
              r.1.handlers r.1.fullPath))
    else
      -- otherwise attach the handlers to the current node
      if n1.handlers ≠ none then
        some (.error "handlers are already registered for path")
      else
        some (.ok (Node.mk n1.path n1.indices n1.priority n1.children
          (some hs) f))

/-- `node.addRoute` from tree.go.  Increments the node's priority; an empty
tree takes the path verbatim, otherwise the insertion walk runs. -/
def Node.addRoute (fuel : Nat) (n : Node) (p : Bytes) (hs : HandlersChain) :
    Option (Except String Node) :=
  let n1 := incPrioNode n
  if n1.path.length = 0 ∧ n1.children.length = 0 then
    some (.ok (n1.insertChild p p hs))
  else
    walk fuel n1 p p hs

/-- Result of a lookup.  `oob` models the Go panic of an out-of-bounds child
access (never reached on trees built by `addRoute`); `fuelOut` is an
artefact of the explicit fuel and is proven unreachable when the fuel is at
least the size of the tree. -/
inductive Lookup where
  | found : HandlersChain → Lookup
  | notFound : Lookup
  | oob : Lookup
  | fuelOut : Lookup
deriving DecidableEq

/-- The walk loop of `node.getValue` from tree.go, one fuel unit per
iteration. -/
def getValueFuel : Nat → Node → Bytes → Lookup
  | 0, _, _ => .fuelOut
  | fuel + 1, n, path =>
    if n.path.length < path.length ∧ path.take n.path.length = n.path then
      let path2 := path.drop n.path.length
      match scanIdx (path2.headD 0) n.indices with
      | some i =>
        match n.children[i]? with
        | some c => getValueFuel fuel c path2
        | none => .oob
      | none => .notFound
    else if path = n.path then
      match n.handlers with
      | some h => .found h
      | none => .notFound
    else .notFound

/-- `node.getValue`.  On every tree built by `addRoute` each loop iteration
that descends strips a non-empty segment from the request path, so
`p.length + 1` iterations always suffice; the fuel artefact `fuelOut` is
proven unreachable on such trees. -/
def Node.getValue (n : Node) (p : Bytes) : Lookup :=
  getValueFuel (p.length + 1) n p

/-- `HandlersChain.Last` from hapi.go: the last handler of the chain, `nil`
when the chain is empty. -/
def HandlersChain.Last (c : HandlersChain) : Option HandlerId :=
  if h : 0 < c.length then some (c.get ⟨c.length - 1, by omega⟩) else none

/-- `methodTrees.get` from tree.go: linear scan, first matching method. -/
def treesGet : List (String × Node) → String → Option Node
  | [], _ => none
  | t :: rest, m => if t.1 = m then some t.2 else treesGet rest m

/-- The root `Engine.addRoute` creates for a first-seen method: `new(node)`
with `fullPath = "/"`. -/
def freshRoot : Node := Node.mk [] [] 0 [] none [47]

/-- The tree-table update performed by `Engine.addRoute`: the root of the
first entry with the given method has the route added; when there is no
such entry, a fresh root is appended at the end of the table. -/
def addToTrees (fuel : Nat) :
    List (String × Node) → String → Bytes → HandlersChain →
    Option (Except String (List (String × Node)))
  | [], m, p, hs =>
    match Node.addRoute fuel freshRoot p hs with
    | some (.ok r) => some (.ok [(m, r)])
    | some (.error e) => some (.error e)
    | none => none
  | t :: rest, m, p, hs =>
    if t.1 = m then
      match Node.addRoute fuel t.2 p hs with
      | some (.ok r) => some (.ok ((t.1, r) :: rest))
      | some (.error e) => some (.error e)
      | none => none
    else
      match addToTrees fuel rest m p hs with
      | some (.ok rest2) => some (.ok (t :: rest2))
      | some (.error e) => some (.error e)
      | none => none

/-- `Engine.addRoute` from hapi.go: the three `assert1` preconditions (a
panic each, and `path[0]` itself panics on an empty path), then the
tree-table update. -/
def engineAddRoute (fuel : Nat) (trees : List (String × Node)) (m : String)
    (p : Bytes) (hs : HandlersChain) :
    Option (Except String (List (String × Node))) :=
  if p.headD 0 ≠ 47 then some (.error "path must begin with slash")
  else if m = "" then some (.error "HTTP method can not be empty")
  else if hs.length = 0 then
    some (.error "there must be at least one handler")
  else addToTrees fuel trees m p hs

/-- The method-dispatch loop of `Engine.handleHTTPRequest`: find the first
table entry whose method matches and look the path up in its tree; a miss
there, or no matching entry at all, is a no-route result. -/
def engineLookup : List (String × Node) → String → Bytes → Lookup
  | [], _, _ => .notFound
  | t :: rest, m, p =>
    if t.1 = m then t.2.getValue p else engineLookup rest m p

/-- Fold a sequence of registrations over one tree, as the repository's
`Test_node_addRoute` does with successive `addRoute` calls. -/
def buildSteps (fuel : Nat) :
    List (Bytes × HandlersChain) → Option (Except String Node) →
    Option (Except String Node)
  | [], acc => acc
  | r :: rest, acc =>
    match acc with
    | some (.ok n) => buildSteps fuel rest (Node.addRoute fuel n r.1 r.2)
    | other => other

/-- The `&node{}` zero value used as the tree root in tree_test.go. -/
def zeroNode : Node := Node.mk [] [] 0 [] none []

def buildTree (fuel : Nat) (regs : List (Bytes × HandlersChain)) :
    Option (Except String Node) :=
  buildSteps fuel regs (some (.ok zeroNode))

def treeOf : Option (Except String Node) → Node
  | some (.ok n) => n
  | _ => zeroNode

def isOk : Option (Except String Node) → Bool
  | some (.ok _) => true
  | _ => false

/-- The route set of the concrete test vector (byte encodings of `/hi`,
`/contact`, `/co`, `/c`, `/a`, `/ab`, `/doc/`, `/doc/go1.html`,
`/doc/go_faq.html`, `/α`, `/β`), each with its own handler chain. -/
def vecRegs : List (Bytes × HandlersChain) :=
  [([47, 104, 105], [1]),
   ([47, 99, 111, 110, 116, 97, 99, 116], [2]),
   ([47, 99, 111], [3]),
   ([47, 99], [4]),
   ([47, 97], [5]),
   ([47, 97, 98], [6]),
   ([47, 100, 111, 99, 47], [7]),
   ([47, 100, 111, 99, 47, 103, 111, 49, 46, 104, 116, 109, 108], [8]),
   ([47, 100, 111, 99, 47, 103, 111, 95, 102, 97, 113, 46, 104, 116, 109,
     108], [9]),
   ([47, 206, 177], [10]),
   ([47, 206, 178], [11])]

def vecTree : Node := treeOf (buildTree 8 vecRegs)


/-! ### Basic facts about the embedded operations -/

@[simp] theorem Node.path_mk (p i pr cs h f) :
    (Node.mk p i pr cs h f).path = p := rfl

@[simp] theorem Node.indices_mk (p i pr cs h f) :
    (Node.mk p i pr cs h f).indices = i := rfl

@[simp] theorem Node.priority_mk (p i pr cs h f) :
    (Node.mk p i pr cs h f).priority = pr := rfl

@[simp] theorem Node.children_mk (p i pr cs h f) :
    (Node.mk p i pr cs h f).children = cs := rfl

@[simp] theorem Node.handlers_mk (p i pr cs h f) :
    (Node.mk p i pr cs h f).handlers = h := rfl

@[simp] theorem Node.fullPath_mk (p i pr cs h f) :
    (Node.mk p i pr cs h f).fullPath = f := rfl

theorem Node.eta (n : Node) :
    Node.mk n.path n.indices n.priority n.children n.handlers n.fullPath
      = n := by
  cases n
  rfl

/-- If the first bytes of two byte strings differ (with `headD`-view, which
also covers one of them being empty), the common prefix is empty. -/
theorem commonPrefixLen_eq_zero {p q : Bytes} (h : p.headD 0 ≠ q.headD 0) :
    commonPrefixLen p q = 0 := by
  match p, q with
  | [], _ => cases q <;> rfl
  | a :: as, [] => rfl
  | a :: as, b :: bs =>
    simp only [List.headD_cons] at h
    simp [commonPrefixLen, h]

theorem commonPrefixLen_le_left : ∀ p q : Bytes, commonPrefixLen p q ≤ p.length := by
  intro p
  induction p with
  | nil => intro q; cases q <;> simp [commonPrefixLen]
  | cons a as ih =>
    intro q
    cases q with
    | nil => simp [commonPrefixLen]
    | cons b bs =>
      by_cases hab : a = b <;> simp [commonPrefixLen, hab] <;> exact ih bs

theorem commonPrefixLen_le_right : ∀ p q : Bytes, commonPrefixLen p q ≤ q.length := by
  intro p
  induction p with
  | nil => intro q; cases q <;> simp [commonPrefixLen]
  | cons a as ih =>
    intro q
    cases q with
    | nil => simp [commonPrefixLen]
    | cons b bs =>
      by_cases hab : a = b <;> simp [commonPrefixLen, hab] <;> exact ih bs

/-- The insertion-walk divergence at the heart of the termination bug: at a
node whose segment does not start with the slash byte while the remaining
path does, every iteration splits the node at common-prefix length 0 and the
unguarded slash shortcut descends straight back into the demoted child, so
the walk never returns, whatever the fuel. -/
theorem walk_diverges : ∀ (fuel : Nat) (n : Node) (p f : Bytes)
    (hs : HandlersChain), n.path ≠ [] → n.path.headD 0 ≠ 47 →
    p.headD 0 = 47 → p ≠ [] → walk fuel n p f hs = none := by
  intro fuel
  induction fuel with
  | zero => intro n p f hs _ _ _ _; rfl
  | succ fuel ih =>
    intro n p f hs hnp hnh hph hp
    have hcpl : commonPrefixLen p n.path = 0 :=
      commonPrefixLen_eq_zero (by rw [hph]; exact fun h => hnh h.symm)
    have h0 : 0 < n.path.length := List.length_pos.mpr hnp
    have h0p : 0 < p.length := List.length_pos.mpr hp
    have hch : walk fuel (incPrioNode (Node.mk n.path n.indices
        (u32pred n.priority) n.children n.handlers n.fullPath))
        p f hs = none :=
      ih _ p f hs hnp hnh hph hp
    rw [walk.eq_2, hcpl, if_pos h0]
    rw [List.drop_zero, if_pos h0p]
    dsimp only []
    rw [hph]
    rw [if_pos (show (47:Nat) = 47 ∧ (splitNode n p 0).children.length = 1
      from And.intro rfl rfl)]
    have hcd : (splitNode n p 0).children.headD (Node.mk [] [] 0 [] none [])
        = Node.mk n.path n.indices (u32pred n.priority) n.children
          n.handlers n.fullPath := by
      dsimp only [splitNode, Node.children_mk, List.headD_cons]
      rw [List.drop_zero]
    rw [hcd, hch]
    rfl

/-- Entry point of the divergence: at a node whose whole segment matches,
with the next unmatched byte a slash and exactly one child whose segment
does not start with a slash, the insertion walk descends into that child
and then never returns. -/
theorem walk_diverges_slash (fuel : Nat) (n ch : Node) (p f : Bytes)
    (hs : HandlersChain)
    (hcpl : commonPrefixLen p n.path = n.path.length)
    (hlt : n.path.length < p.length)
    (hc : (p.drop n.path.length).headD 0 = 47)
    (hone : n.children = [ch])
    (hchp : ch.path ≠ []) (hchh : ch.path.headD 0 ≠ 47) :
    walk fuel n p f hs = none := by
  cases fuel with
  | zero => rfl
  | succ fuel =>
    have hp2 : (p.drop n.path.length) ≠ [] := by
      intro hemp
      have := congrArg List.length hemp
      simp only [List.length_drop, List.length_nil] at this
      omega
    have hrec : walk fuel (incPrioNode ch) (p.drop n.path.length) f hs
        = none :=
      walk_diverges fuel (incPrioNode ch) _ f hs hchp hchh hc hp2
    rw [walk.eq_2, hcpl, if_neg (lt_irrefl n.path.length), if_pos hlt]
    dsimp only []
    rw [hc, if_pos (show (47:Nat) = 47 ∧ n.children.length = 1 by
      rw [hone]; exact And.intro rfl rfl)]
    rw [hone]
    dsimp only [List.headD_cons]
    rw [hrec]
    rfl

/-- The tree after registering `/ab` (bytes `[47, 97, 98]`) on an empty
tree. -/
def treeAB : Node := treeOf (Node.addRoute 8 zeroNode [47, 97, 98] [1])

/-- C2: the claim that every `addRoute` call on a reachable tree either
attaches the handlers or fails fatally after finitely many steps is
violated by the code: registering `/ab` succeeds, but the subsequent call
registering `/a/c` (slash-prefixed, non-empty handlers, not a duplicate)
never returns — the walk loop runs forever no matter how much fuel it is
given, because the unguarded slash shortcut keeps splitting the demoted
child `b` and descending back into it. -/
theorem addRoute_ab_then_ac_diverges :
    isOk (Node.addRoute 8 zeroNode [47, 97, 98] [1]) = true ∧
    (∀ fuel, Node.addRoute fuel treeAB [47, 97, 47, 99] [2] = none) := by
  refine And.intro (by decide) (fun fuel => ?_)
  cases fuel with
  | zero => rfl
  | succ fuel =>
    show reattach (Node.mk [47, 97] [98] 2
        [Node.mk [98] [] 1 [] (some [1]) [47, 97, 98]] none [47, 97, 98]) 0
      (walk fuel (incPrioNode (Node.mk [98] [] 1 [] (some [1]) [47, 97, 98]))
        [47, 99] [47, 97, 47, 99] [2]) = none
    rw [walk_diverges fuel _ _ _ _ (by decide) (by decide) (by decide)
      (by decide)]
    rfl

/-- C10: `HandlersChain.Last` is total: it returns the last handler of a
non-empty chain and `none` (Go `nil`) on the empty chain, never failing. -/
theorem HandlersChain.Last_eq_getLast? (c : HandlersChain) :
    HandlersChain.Last c = c.getLast? := by
  unfold HandlersChain.Last
  by_cases h : 0 < c.length
  · rw [dif_pos h, List.getLast?_eq_getElem?,
      List.getElem?_eq_getElem (by omega)]
    rfl
  · rw [dif_neg h]
    cases c with
    | nil => rfl
    | cons a l => simp at h

/-- C5: longest-common-prefix correctness on the concrete vector.  Building
one tree from `/hi`, `/contact`, `/co`, `/c`, `/a`, `/ab`, `/doc/`,
`/doc/go1.html`, `/doc/go_faq.html`, `/α`, `/β` (each with its own handler
chain) succeeds, and `getValue` finds `/a`, `/hi`, `/contact`, `/co`,
`/ab`, `/α`, `/β` with exactly the handler chain registered for that path
while `/`, `/con`, `/cona`, `/no` have no match; the two-byte UTF-8
segments of `/α` and `/β` are processed as opaque bytes. -/
theorem vecTree_lookups :
    isOk (buildTree 8 vecRegs) = true ∧
    vecTree.getValue [47, 97] = .found [5] ∧
    vecTree.getValue [47, 104, 105] = .found [1] ∧
    vecTree.getValue [47, 99, 111, 110, 116, 97, 99, 116] = .found [2] ∧
    vecTree.getValue [47, 99, 111] = .found [3] ∧
    vecTree.getValue [47, 97, 98] = .found [6] ∧
    vecTree.getValue [47, 206, 177] = .found [10] ∧
    vecTree.getValue [47, 206, 178] = .found [11] ∧
    vecTree.getValue [47] = .notFound ∧
    vecTree.getValue [47, 99, 111, 110] = .notFound ∧
    vecTree.getValue [47, 99, 111, 110, 97] = .notFound ∧
    vecTree.getValue [47, 110, 111] = .notFound := by
  decide

def treesOf : Option (Except String (List (String × Node))) →
    List (String × Node)
  | some (.ok t) => t
  | _ => []

def isOkT : Option (Except String (List (String × Node))) → Bool
  | some (.ok _) => true
  | _ => false

def isErrT : Option (Except String (List (String × Node))) → Bool
  | some (.error _) => true
  | _ => false

/-- The method table after registering `GET /x` on an empty engine. -/
def treesX : List (String × Node) :=
  treesOf (engineAddRoute 8 [] "GET" [47, 120] [1])

/-- The method table after registering `GET /x` and then `GET /xy`. -/
def treesXY : List (String × Node) :=
  treesOf (engineAddRoute 8 treesX "GET" [47, 120, 121] [2])

/-- C3: `Engine.addRoute` does fail fatally on each precondition violation
(path without a leading slash, empty method, empty handler chain) and on a
duplicate exact-path registration, but the claim "in every other case the
call completes without a fatal error" is violated by the code: after the
valid registrations `GET /x` and `GET /xy`, the valid, non-duplicate call
registering `GET /x/z` neither completes nor panics — its insertion walk
runs forever whatever the fuel. -/
theorem engineAddRoute_panics_and_diverges :
    isErrT (engineAddRoute 8 [] "GET" [120, 97] [1]) = true ∧
    isErrT (engineAddRoute 8 [] "" [47, 97] [1]) = true ∧
    isErrT (engineAddRoute 8 [] "GET" [47, 97] []) = true ∧
    isErrT (engineAddRoute 8 treesX "GET" [47, 120] [9]) = true ∧
    isOkT (engineAddRoute 8 treesX "GET" [47, 120, 121] [2]) = true ∧
    (∀ fuel, engineAddRoute fuel treesXY "GET" [47, 120, 47, 122] [3]
      = none) := by
  refine ⟨by decide, by decide, by decide, by decide, by decide,
    fun fuel => ?_⟩
  have hw : walk fuel (incPrioNode (Node.mk [47, 120] [121] 2
      [Node.mk [121] [] 1 [] (some [2]) [47, 120, 121]] (some [1])
      [47, 120])) [47, 120, 47, 122] [47, 120, 47, 122] [3] = none :=
    walk_diverges_slash fuel _ _ _ _ _ (by decide) (by decide) (by decide)
      rfl (by decide) (by decide)
  have ht : treesXY = [("GET", Node.mk [47, 120] [121] 2
      [Node.mk [121] [] 1 [] (some [2]) [47, 120, 121]] (some [1])
      [47, 120])] := rfl
  rw [ht]
  simp only [engineAddRoute, addToTrees, Node.addRoute, reduceIte]
  rw [hw]
  rfl

/-- The `getValue` walk with the tree state threaded through explicitly:
besides the lookup result, each call returns the (sub)tree as it stands
after the call.  The source performs no field assignment anywhere on the
read path (it only reads `path`, `indices`, `children`, `handlers`), so
the returned state is built by reassembling exactly the nodes that were
read. -/
def getValueState : Nat → Node → Bytes → Lookup × Node
  | 0, n, _ => (.fuelOut, n)
  | fuel + 1, n, path =>
    if n.path.length < path.length ∧ path.take n.path.length = n.path then
      let path2 := path.drop n.path.length
      match scanIdx (path2.headD 0) n.indices with
      | some i =>
        match n.children[i]? with
        | some c =>
          let r := getValueState fuel c path2
          (r.1, Node.mk n.path n.indices n.priority (n.children.set i r.2)
            n.handlers n.fullPath)
        | none => (.oob, n)
      | none => (.notFound, n)
    else if path = n.path then
      match n.handlers with
      | some h => (.found h, n)
      | none => (.notFound, n)
    else (.notFound, n)

theorem list_set_self : ∀ (cs : List Node) (i : Nat) (c : Node),
    cs[i]? = some c → cs.set i c = cs := by
  intro cs
  induction cs with
  | nil => intro i c h; cases h
  | cons a l ih =>
    intro i c h
    cases i with
    | zero =>
      simp only [List.getElem?_cons_zero, Option.some.injEq] at h
      rw [List.set_cons_zero, h]
    | succ i =>
      simp only [List.getElem?_cons_succ] at h
      rw [List.set_cons_succ, ih i c h]

theorem getValueState_spec : ∀ (fuel : Nat) (n : Node) (p : Bytes),
    (getValueState fuel n p).2 = n ∧
    (getValueState fuel n p).1 = getValueFuel fuel n p := by
  intro fuel
  induction fuel with
  | zero => intro n p; exact ⟨rfl, rfl⟩
  | succ fuel ih =>
    intro n p
    rw [getValueState.eq_2, getValueFuel.eq_2]
    by_cases h1 : n.path.length < p.length ∧ p.take n.path.length = n.path
    · rw [if_pos h1, if_pos h1]
      dsimp only []
      split
      next i hscan =>
        split
        next c hget =>
          rcases ih c (p.drop n.path.length) with ⟨hst, hres⟩
          constructor
          · show (Node.mk n.path n.indices n.priority
              (n.children.set i
                (getValueState fuel c (p.drop n.path.length)).2)
              n.handlers n.fullPath) = n
            rw [hst, list_set_self n.children i c hget, Node.eta]
          · exact hres
        next hget => exact ⟨rfl, rfl⟩
      next hscan => exact ⟨rfl, rfl⟩
    · rw [if_neg h1, if_neg h1]
      by_cases h2 : p = n.path
      · rw [if_pos h2, if_pos h2]
        cases n.handlers <;> exact ⟨rfl, rfl⟩
      · rw [if_neg h2, if_neg h2]
        exact ⟨rfl, rfl⟩

/-- C7: lookup is read-only and idempotent: threading the tree state
through the `getValue` walk leaves every node unchanged (no field of any
node is written), the result agrees with `getValue`, and a repeated lookup
of the same path on the returned state yields the identical handler
chain. -/
theorem getValue_readonly_idempotent (fuel : Nat) (n : Node) (p : Bytes) :
    (getValueState fuel n p).2 = n ∧
    (getValueState fuel n p).1 = getValueFuel fuel n p ∧
    getValueFuel fuel (getValueState fuel n p).2 p
      = getValueFuel fuel n p ∧
    ((getValueState (p.length + 1) n p).2).getValue p = n.getValue p := by
  rcases getValueState_spec fuel n p with ⟨h1, h2⟩
  rcases getValueState_spec (p.length + 1) n p with ⟨h3, _⟩
  exact ⟨h1, h2, by rw [h1], by rw [h3]⟩

theorem addToTrees_frame : ∀ (fuel : Nat) (trees : List (String × Node))
    (m1 m2 : String) (p : Bytes) (hs : HandlersChain)
    (trees2 : List (String × Node)) (q : Bytes), m1 ≠ m2 →
    addToTrees fuel trees m1 p hs = some (.ok trees2) →
    engineLookup trees2 m2 q = engineLookup trees m2 q := by
  intro fuel trees
  induction trees with
  | nil =>
    intro m1 m2 p hs trees2 q hm hok
    rw [addToTrees.eq_1] at hok
    cases haddr : Node.addRoute fuel freshRoot p hs with
    | none => rw [haddr] at hok; cases hok
    | some r =>
      cases r with
      | error e => rw [haddr] at hok; cases hok
      | ok r =>
        rw [haddr] at hok
        injection hok with hok
        injection hok with hok
        rw [← hok]
        show (if m1 = m2 then r.getValue q else engineLookup [] m2 q)
          = engineLookup [] m2 q
        rw [if_neg hm]
  | cons t rest ih =>
    intro m1 m2 p hs trees2 q hm hok
    rw [addToTrees.eq_2] at hok
    by_cases ht : t.1 = m1
    · rw [if_pos ht] at hok
      cases haddr : Node.addRoute fuel t.2 p hs with
      | none => rw [haddr] at hok; cases hok
      | some r =>
        cases r with
        | error e => rw [haddr] at hok; cases hok
        | ok r =>
          rw [haddr] at hok
          injection hok with hok
          injection hok with hok
          rw [← hok]
          show (if t.1 = m2 then r.getValue q else engineLookup rest m2 q)
            = engineLookup (t :: rest) m2 q
          rw [if_neg (ht ▸ hm), engineLookup.eq_2, if_neg (ht ▸ hm)]
    · rw [if_neg ht] at hok
      cases hrec : addToTrees fuel rest m1 p hs with
      | none => rw [hrec] at hok; cases hok
      | some r =>
        cases r with
        | error e => rw [hrec] at hok; cases hok
        | ok rest2 =>
          rw [hrec] at hok
          injection hok with hok
          injection hok with hok
          rw [← hok]
          rw [engineLookup.eq_2, engineLookup.eq_2]
          by_cases h2 : t.1 = m2
          · rw [if_pos h2, if_pos h2]
          · rw [if_neg h2, if_neg h2]
            exact ih m1 m2 p hs rest2 q hm hrec

/-- C9: method isolation.  Registering a path under one method leaves
lookups under any other method unchanged (in particular a path registered
under `GET` is not found under `POST` unless separately registered), and
when the method table has no entry for a method the dispatch loop reports
no match at once. -/
theorem engineLookup_method_isolation :
    (∀ (fuel : Nat) (trees : List (String × Node)) (m1 m2 : String)
      (p : Bytes) (hs : HandlersChain) (trees2 : List (String × Node))
      (q : Bytes), m1 ≠ m2 →
      engineAddRoute fuel trees m1 p hs = some (.ok trees2) →
      engineLookup trees2 m2 q = engineLookup trees m2 q) ∧
    (∀ (trees : List (String × Node)) (m : String) (q : Bytes),
      treesGet trees m = none → engineLookup trees m q = .notFound) := by
  constructor
  · intro fuel trees m1 m2 p hs trees2 q hm hok
    unfold engineAddRoute at hok
    by_cases h1 : p.headD 0 ≠ 47
    · rw [if_pos h1] at hok; cases hok
    · rw [if_neg h1] at hok
      by_cases h2 : m1 = ""
      · rw [if_pos h2] at hok; cases hok
      · rw [if_neg h2] at hok
        by_cases h3 : hs.length = 0
        · rw [if_pos h3] at hok; cases hok
        · rw [if_neg h3] at hok
          exact addToTrees_frame fuel trees m1 m2 p hs trees2 q hm hok
  · intro trees m q
    induction trees with
    | nil => intro _; rfl
    | cons t rest ih =>
      intro hget
      rw [treesGet.eq_2] at hget
      rw [engineLookup.eq_2]
      by_cases h : t.1 = m
      · rw [if_pos h] at hget; cases hget
      · rw [if_neg h] at hget
        rw [if_neg h]
        exact ih hget

/-- Concrete instance of method isolation: after registering `GET /x` on
an empty engine, a `POST /x` lookup still reports no route. -/
theorem engineLookup_method_isolation_witness :
    engineLookup treesX "POST" [47, 120] = engineLookup [] "POST" [47, 120]
      ∧ engineLookup [] "POST" [47, 120] = .notFound := by
  constructor
  · exact engineLookup_method_isolation.1 8 [] "GET" "POST" [47, 120] [1]
      treesX [47, 120] (by decide) rfl
  · exact engineLookup_method_isolation.2 [] "POST" [47, 120] rfl
